import Mathlib

/-!
Shallow embedding of the antipassive-constructions CLDF build script
(cldfbench_serzantjanicantipassives.py).

Rows are ordered association lists of column name to cell value; dictionary
lookups follow Python dict-comprehension semantics (for a repeated key the
value written last wins).  Fallible code is modelled with Except: a Python
exception that escapes cmd_makecldf becomes an error value, so an error
result means the run halts with no output written.  Latitude and longitude
are catalog values that the script merely copies, so they are carried as
opaque strings.
-/

namespace AP

/-- a CSV row: association list of column name to cell value. -/
abbrev Row := List (String × String)

/-- Python dict lookup for dicts built by comprehensions over key-value
pairs: the value written last for a key wins. -/
def pyGet? {α β : Type} [DecidableEq α] : List (α × β) → α → Option β
  | [], _ => none
  | kv :: rest, k =>
    match pyGet? rest k with
    | some v => some v
    | none => if kv.1 = k then some kv.2 else none

/-- Python dict.get with a default. -/
def pyGetD {α β : Type} [DecidableEq α] (d : List (α × β)) (k : α) (dflt : β) : β :=
  (pyGet? d k).getD dflt

/-- the whitespace class stripped by Python str.strip (ASCII part). -/
def isSpace (c : Char) : Bool :=
  c = ' ' || c = '\t' || c = '\n' || c = '\r' || c = '\x0b' || c = '\x0c'

/-- Python str.strip on the underlying character list. -/
def stripL (cs : List Char) : List Char :=
  ((cs.dropWhile isSpace).reverse.dropWhile isSpace).reverse

/-- Python str.strip. -/
def pystrip (s : String) : String := ⟨stripL s.data⟩

/-- normalise_row: strip every key and value, drop entries whose key or
value strips to the empty string. -/
def normalise_row (row : Row) : Row :=
  (row.map (fun kv => (pystrip kv.1, pystrip kv.2))).filter
    (fun kv => !(kv.1 == "") && !(kv.2 == ""))

/-- normalise_table: normalise every row, drop rows that become empty. -/
def normalise_table (table : List Row) : List Row :=
  (table.map normalise_row).filter (fun r => !r.isEmpty)

/-- the word characters of the regex r'\w+' (ASCII part). -/
def isWordChar (c : Char) : Bool := c.isAlphanum || c = '_'

/-- title_case: re.sub(r'\w+', capitalize, s); the first character of each
word-character run is uppercased and the rest of the run lowercased. -/
def titleCaseGo : Bool → List Char → List Char
  | _, [] => []
  | inWord, c :: cs =>
    if isWordChar c then
      (if inWord then c.toLower else c.toUpper) :: titleCaseGo true cs
    else
      c :: titleCaseGo false cs

/-- title_case from the script. -/
def title_case (s : String) : String := ⟨titleCaseGo false s.data⟩

/-- NA_SYNONYMS from the script. -/
def NA_SYNONYMS : List String := ["NI", "_inapplicable", "NA", "n/a"]

/-- unify_na from the script. -/
def unify_na (value : String) : String :=
  if value ∈ NA_SYNONYMS then "n/a" else value

/-- PARAMETER_COLUMNS from the script: (column header, parameter id). -/
def PARAMETER_COLUMNS : List (String × String) :=
  [("AP marker", "ap-marker"),
   ("Type of AP Marker", "marker-type"),
   ("FunctionAP", "functions"),
   ("Polysemy", "polysemy"),
   ("Productivity of AP", "productivity"),
   ("Obligatoriness of P", "p-obligatoriness"),
   ("Definiteness P", "p-definiteness")]

/-- Python string comparison: lexicographic on code points. -/
def ltChars : List Char → List Char → Bool
  | [], [] => false
  | [], _ :: _ => true
  | _ :: _, [] => false
  | a :: as, b :: bs =>
    if a < b then true else if b < a then false else ltChars as bs

/-- Python string comparison on String. -/
def ltStr (s t : String) : Bool := ltChars s.data t.data

/-- insertion step of Python sorted on strings. -/
def insertSorted (x : String) : List String → List String
  | [] => [x]
  | y :: ys => if ltStr x y then x :: y :: ys else y :: insertSorted x ys

/-- Python sorted on a list of strings (lexicographic on code points). -/
def sortStrings : List String → List String
  | [] => []
  | x :: xs => insertSorted x (sortStrings xs)

/-- the distinct elements of a list (Python set contents; the iteration
order of a set is irrelevant here because the result is sorted next). -/
def pyDedup : List String → List String
  | [] => []
  | x :: xs => if x ∈ xs then pyDedup xs else x :: pyDedup xs

/-- Python sorted(set(l)). -/
def py_sorted_set (l : List String) : List String := sortStrings (pyDedup l)

/-- the slice of a Glottolog languoid that the script reads. -/
structure Languoid where
  iso : String
  name : String
  macroareas : List String
  latitude : String
  longitude : String
  deriving DecidableEq, Inhabited

/-- one locally derived lang_info entry. -/
structure LangInfo where
  ID : String
  Name : String
  SubBranch : String
  Family : String
  deriving DecidableEq, Inhabited

/-- the first ChainMap layer: generated identifier fields. -/
def identMap (g : String) (node : Languoid) : List (String × String) :=
  [("ID", g), ("Glottocode", g), ("ISO639P3code", node.iso)]

/-- the second ChainMap layer: lang_info items with truthy key and value. -/
def localMap (info : LangInfo) : List (String × String) :=
  ([("ID", info.ID), ("Name", info.Name), ("SubBranch", info.SubBranch),
    ("Family", info.Family)]).filter (fun kv => !(kv.1 == "") && !(kv.2 == ""))

/-- the third ChainMap layer: catalog enrichment fields. -/
def catalogMap (node : Languoid) : List (String × String) :=
  [("Name", node.name), ("Macroarea", node.macroareas.headD ""),
   ("Latitude", node.latitude), ("Longitude", node.longitude)]

/-- a language record: the list of ChainMap layers, first layer wins. -/
abbrev LangRecord := List (List (String × String))

/-- the ChainMap built for one glottocode by make_language_table. -/
def mkLangRecord (g : String) (info : LangInfo) (node : Languoid) : LangRecord :=
  [identMap g node, localMap info, catalogMap node]

/-- collections.ChainMap lookup: the first layer holding the key wins. -/
def chainGet : LangRecord → String → Option String
  | [], _ => none
  | m :: ms, k =>
    match pyGet? m k with
    | some v => some v
    | none => chainGet ms k

/-- the list comprehension of make_language_table over the sorted
glottocodes; a glottocode missing from the catalog raises KeyError. -/
def mlt_go (catalog : String → Option Languoid) (li : List (String × LangInfo)) :
    List String → Except String (List LangRecord)
  | [] => .ok []
  | g :: gs =>
    match catalog g with
    | none => .error ("KeyError: " ++ g)
    | some node =>
      match mlt_go catalog li gs with
      | .error e => .error e
      | .ok rest => .ok (mkLangRecord g (pyGetD li g default) node :: rest)

/-- make_language_table from the script, with the Glottolog catalog passed
in as a lookup function. -/
def make_language_table (catalog : String → Option Languoid)
    (li : List (String × LangInfo)) : Except String (List LangRecord) :=
  mlt_go catalog li (py_sorted_set (li.map (fun kv => kv.1)))

/-- the lang_info value built from one row. -/
def mkInfo (g : String) (row : Row) : LangInfo :=
  ⟨g, title_case (pyGetD row "Language" ""),
    title_case (pyGetD row "Sub-branch" ""),
    title_case (pyGetD row "Family" "")⟩

/-- the lang_info dict comprehension; a row without the Glottolog.Name
column raises KeyError. -/
def lang_info_of : List Row → Except String (List (String × LangInfo))
  | [] => .ok []
  | row :: rest =>
    match pyGet? row "Glottolog.Name" with
    | none => .error "KeyError: Glottolog.Name"
    | some g =>
      match lang_info_of rest with
      | .error e => .error e
      | .ok li => .ok ((g, mkInfo g row) :: li)

/-- sorted({unify_na(row[column]) for row in data if row.get(column)}). -/
def observedValues (data : List Row) (column : String) : List String :=
  py_sorted_set
    ((data.filter (fun row => !(pyGetD row column "" == ""))).map
      (fun row => unify_na (pyGetD row column "")))

/-- code_dict from the script: observed vocabularies for every parameter
except ap-marker. -/
def code_dict (data : List Row) : List (String × List String) :=
  PARAMETER_COLUMNS.filterMap (fun cp =>
    if cp.2 = "ap-marker" then none else some (cp.2, observedValues data cp.1))

/-- one CodeTable record. -/
structure CodeRecord where
  ID : String
  Parameter_ID : String
  Name : String
  deriving DecidableEq, Inhabited

/-- enumerate(code_names) inside the codes comprehension. -/
def enumCodes (p : String) : Nat → List String → List ((String × String) × CodeRecord)
  | _, [] => []
  | i, v :: vs => ((p, v), ⟨p ++ "-c" ++ toString (i + 1), p, v⟩) :: enumCodes p (i + 1) vs

/-- the codes dict keyed by (parameter id, value name). -/
def mkCodes (data : List Row) : List ((String × String) × CodeRecord) :=
  (code_dict data).flatMap (fun pn => enumCodes pn.1 0 pn.2)

/-- Python str.splitlines restricted to the line breaks LF, CR and CRLF. -/
def splitlinesGo : List Char → List Char → List String
  | acc, [] => if acc.isEmpty then [] else [⟨acc.reverse⟩]
  | acc, '\r' :: '\n' :: rest => ⟨acc.reverse⟩ :: splitlinesGo [] rest
  | acc, '\r' :: rest => ⟨acc.reverse⟩ :: splitlinesGo [] rest
  | acc, '\n' :: rest => ⟨acc.reverse⟩ :: splitlinesGo [] rest
  | acc, c :: rest => splitlinesGo (c :: acc) rest

/-- Python str.splitlines. -/
def splitlines (s : String) : List String := splitlinesGo [] s.data

/-- known_citation from the script.  The unknown branch prints to
sys.stderr, but the module never imports sys, so reaching it raises
NameError instead of returning False. -/
def known_citation (sm : List (String × String)) (cite : String) : Except String Bool :=
  if (pyGet? sm cite).isSome then .ok true
  else .error "NameError: name 'sys' is not defined"

/-- the citations list comprehension: filter each source line through
known_citation (unstripped), then index source_map with the stripped line. -/
def resolveCitations (sm : List (String × String)) : List String → Except String (List String)
  | [] => .ok []
  | line :: rest =>
    match known_citation sm line with
    | .error e => .error e
    | .ok _ =>
      match pyGet? sm (pystrip line) with
      | none => .error ("KeyError: " ++ pystrip line)
      | some key =>
        match resolveCitations sm rest with
        | .error e => .error e
        | .ok keys => .ok (key :: keys)

/-- one constructions.csv record. -/
structure Construction where
  ID : String
  Name : String
  Language_ID : String
  Source : List String
  deriving DecidableEq, Inhabited

/-- one cvalues.csv record. -/
structure CValue where
  ID : String
  Construction_ID : String
  Parameter_ID : String
  Value : String
  Code_ID : Option String
  deriving DecidableEq, Inhabited

/-- the cvalues generator for one row: one value per parameter column
present with a non-empty cell. -/
def mkCValues (codesK : List ((String × String) × CodeRecord)) (constr_id : String)
    (row : Row) : List CValue :=
  PARAMETER_COLUMNS.filterMap (fun cp =>
    if pyGetD row cp.1 "" = "" then none
    else some
      ⟨constr_id ++ "-" ++ cp.2, constr_id, cp.2, unify_na (pyGetD row cp.1 ""),
        (pyGet? codesK (cp.2, unify_na (pyGetD row cp.1 ""))).map (fun r => r.ID)⟩)

/-- the main row loop of cmd_makecldf: per-language counters (the ords
defaultdict), construction records and cvalue records. -/
def constrLoop (sm : List (String × String)) (languages : List (String × LangRecord))
    (codesK : List ((String × String) × CodeRecord)) :
    (String → Nat) → List Row → Except String (List Construction × List CValue)
  | _, [] => .ok ([], [])
  | ords, row :: rest =>
    match pyGet? row "Glottolog.Name" with
    | none => .error "KeyError: Glottolog.Name"
    | some lang_id =>
      match pyGet? languages lang_id with
      | none => .error ("KeyError: " ++ lang_id)
      | some lrec =>
        match resolveCitations sm (splitlines (pyGetD row "Source" "")) with
        | .error e => .error e
        | .ok citations =>
          match constrLoop sm languages codesK
              (fun x => if x = lang_id then ords lang_id + 1 else ords x) rest with
          | .error e => .error e
          | .ok csvs =>
            .ok
              (⟨lang_id ++ "-ap" ++ toString (ords lang_id + 1),
                 (chainGet lrec "Name").getD "" ++ " Antipassive Construction "
                   ++ toString (ords lang_id + 1),
                 lang_id, citations⟩ :: csvs.1,
               mkCValues codesK (lang_id ++ "-ap" ++ toString (ords lang_id + 1)) row
                 ++ csvs.2)

/-- source_map built from the citations-to-bibtex side table: rows are
(bibliography key, citation string), mapped as stripped citation to
stripped key. -/
def mk_source_map (csvRows : List (String × String)) : List (String × String) :=
  csvRows.map (fun kc => (pystrip kc.2, pystrip kc.1))

/-- the in-memory tables handed to the writer. -/
structure Output where
  languages : List LangRecord
  codes : List CodeRecord
  constructions : List Construction
  cvalues : List CValue
  deriving DecidableEq, Inhabited

/-- cmd_makecldf over already-parsed inputs: the raw data rows, the
citations side table and the Glottolog catalog.  The parameter table and
the bibliography are passed through to the writer unchanged and carry no
logic, so they are not modelled.  An error value is a Python exception
escaping the command: the run halts and no output is written. -/
def cmd_makecldf (catalog : String → Option Languoid)
    (citationCsv : List (String × String)) (rawData : List Row) :
    Except String Output :=
  match lang_info_of (normalise_table rawData) with
  | .error e => .error e
  | .ok li =>
    match make_language_table catalog li with
    | .error e => .error e
    | .ok langs =>
      match constrLoop (mk_source_map citationCsv)
          (langs.map (fun l => ((chainGet l "ID").getD "", l)))
          (mkCodes (normalise_table rawData)) (fun _ => 0)
          (normalise_table rawData) with
      | .error e => .error e
      | .ok csvs =>
        .ok ⟨langs, (mkCodes (normalise_table rawData)).map (fun kv => kv.2),
          csvs.1, csvs.2⟩

/-- the number of rows of a list whose Glottolog.Name cell is g. -/
def countLang (g : String) (rows : List Row) : Nat :=
  (rows.filter (fun r => pyGet? r "Glottolog.Name" == some g)).length

/-- the last row of a list whose Glottolog.Name cell is g. -/
def lastRowWith : List Row → String → Option Row
  | [], _ => none
  | row :: rest, g =>
    match lastRowWith rest g with
    | some r => some r
    | none => if pyGet? row "Glottolog.Name" = some g then some row else none

/-- a string as an optional field value: none when empty. -/
def strOpt (s : String) : Option String := if s = "" then none else some s

/-- example Glottolog catalog used by the concrete runs. -/
def exCatalog : String → Option Languoid := fun g =>
  if g = "taba1259" then some ⟨"tab", "Tabasaran", ["Eurasia"], "41.0", "47.0"⟩
  else if g = "lezg1247" then some ⟨"lez", "Lezgian", [], "41.5", "47.8"⟩
  else none

/-- example citations-to-bibtex side table: (key, citation) rows. -/
def exCitCsv : List (String × String) :=
  [("say2005", "Say 2005"), ("nichols1984", "Nichols 1984")]

/-- example raw data: three rows, two languages, interleaved. -/
def exRaw : List Row :=
  [[("Glottolog.Name", "taba1259"), ("Language", "tabasaran"),
    ("Sub-branch", "lezgic"), ("Family", "nakh-daghestanian"),
    ("AP marker", " -u "), ("Type of AP Marker", "suffix"),
    ("Source", "Say 2005")],
   [("Glottolog.Name", "lezg1247"), ("Language", "lezgian"),
    ("Type of AP Marker", "suffix"), ("Source", "Say 2005\nNichols 1984")],
   [("Glottolog.Name", "taba1259"), ("Language", "tabasaran"),
    ("Type of AP Marker", "NI")]]

/-- the output of the example run. -/
def exOut : Output :=
  match cmd_makecldf exCatalog exCitCsv exRaw with
  | .ok o => o
  | .error _ => default

/-- a raw table whose single row cites a string absent from the table. -/
def c1Raw : List Row :=
  [[("Glottolog.Name", "taba1259"), ("Language", "tabasaran"),
    ("Source", "Nonexistent 2020")]]

/-- a raw table whose first source line carries trailing whitespace while
its stripped form is a known citation. -/
def c3Raw : List Row :=
  [[("Glottolog.Name", "taba1259"), ("Language", "tabasaran"),
    ("Source", "Say 2005 \nNichols 1984")]]

/-- the catalog record of abcd1234. -/
def c2node : Languoid := ⟨"abc", "Catalog Name", ["Eurasia"], "1.0", "2.0"⟩

/-- a catalog holding abcd1234 with canonical name Catalog Name. -/
def c2cat : String → Option Languoid := fun g =>
  if g = "abcd1234" then some c2node else none

/-- lang_info holding a non-empty locally derived name Local Name. -/
def c2li : List (String × LangInfo) :=
  [("abcd1234", ⟨"abcd1234", "Local Name", "Branch", "Fam"⟩)]

/-- the language record built for abcd1234 from c2cat and c2li. -/
def c2rec : LangRecord :=
  mkLangRecord "abcd1234" ⟨"abcd1234", "Local Name", "Branch", "Fam"⟩ c2node

/-- a catalog that lacks lezg1247. -/
def c7cat : String → Option Languoid := fun g =>
  if g = "taba1259" then some ⟨"tab", "Tabasaran", ["Eurasia"], "41.0", "47.0"⟩
  else none

/-- small data set for the code-vocabulary witness. -/
def c5data : List Row :=
  [[("Type of AP Marker", "b")], [("Type of AP Marker", "a")],
   [("Type of AP Marker", "c"), ("Polysemy", "a")], [("Type of AP Marker", "b")]]

/-!  ## Helper lemmas  -/

theorem ltChars_iff (a : List Char) : ∀ b, ltChars a b = true ↔ a < b := by
  induction a with
  | nil =>
    intro b
    cases b with
    | nil =>
      simp only [ltChars, Bool.false_eq_true, false_iff]
      intro h; cases h
    | cons c cs =>
      simp only [ltChars, true_iff]
      exact List.Lex.nil
  | cons x xs ih =>
    intro b
    cases b with
    | nil =>
      simp only [ltChars, Bool.false_eq_true, false_iff]
      intro h; cases h
    | cons y ys =>
      simp only [ltChars]
      by_cases h1 : x < y
      · simp only [h1, if_true, true_iff]
        exact List.Lex.rel h1
      · by_cases h2 : y < x
        · simp only [h1, h2, if_false, if_true, Bool.false_eq_true, false_iff]
          intro h
          cases h with
          | cons h' => exact absurd h2 (lt_irrefl x)
          | rel h' => exact h1 h'
        · have hxy : x = y := le_antisymm (le_of_not_lt h2) (le_of_not_lt h1)
          simp only [h1, h2, if_false, ih ys]
          subst hxy
          constructor
          · exact fun h => List.Lex.cons h
          · intro h
            cases h with
            | cons h' => exact h'
            | rel h' => exact absurd h' h1

theorem ltStr_iff (s t : String) : ltStr s t = true ↔ s < t := by
  rw [String.lt_iff_toList_lt]
  exact ltChars_iff s.data t.data

theorem pyGet?_mem {α β : Type} [DecidableEq α] {l : List (α × β)} {k : α} {v : β}
    (h : pyGet? l k = some v) : (k, v) ∈ l := by
  induction l with
  | nil => simp [pyGet?] at h
  | cons kv rest ih =>
    rw [pyGet?] at h
    cases hr : pyGet? rest k with
    | some w =>
      rw [hr] at h
      exact List.mem_cons_of_mem _ (ih (hr.trans h))
    | none =>
      rw [hr] at h
      by_cases hk : kv.1 = k
      · rw [if_pos hk] at h
        cases h
        rw [← hk]
        exact List.mem_cons_self _ _
      · rw [if_neg hk] at h
        cases h

theorem pyGet?_isSome_iff {α β : Type} [DecidableEq α] {l : List (α × β)} {k : α} :
    (pyGet? l k).isSome = true ↔ k ∈ l.map Prod.fst := by
  induction l with
  | nil => simp [pyGet?]
  | cons kv rest ih =>
    rw [pyGet?]
    cases hr : pyGet? rest k with
    | some w =>
      simp only [Option.isSome_some, true_iff]
      exact List.mem_map.mpr ⟨(k, w), List.mem_cons_of_mem _ (pyGet?_mem hr), rfl⟩
    | none =>
      rw [hr] at ih
      by_cases hk : kv.1 = k
      · simp [hk]
      · rw [if_neg hk]
        simp only [Option.isSome_none, Bool.false_eq_true, false_iff] at ih
        simp only [Option.isSome_none, Bool.false_eq_true, false_iff, List.map_cons,
          List.mem_cons]
        rintro (h | h)
        · exact hk h.symm
        · exact ih h

theorem pyGet?_isSome_of_mem {α β : Type} [DecidableEq α] {l : List (α × β)} {k : α} {v : β}
    (h : (k, v) ∈ l) : (pyGet? l k).isSome = true := by
  rw [pyGet?_isSome_iff]
  exact List.mem_map_of_mem Prod.fst h

theorem pyGet?_eq_none_iff {α β : Type} [DecidableEq α] {l : List (α × β)} {k : α} :
    pyGet? l k = none ↔ k ∉ l.map Prod.fst := by
  constructor
  · intro h hmem
    have hs := pyGet?_isSome_iff.mpr hmem
    rw [h] at hs
    simp at hs
  · intro h
    cases hg : pyGet? l k with
    | none => rfl
    | some v => exact absurd (pyGet?_isSome_iff.mp (by rw [hg]; rfl)) h

theorem mem_insertSorted {y x : String} {l : List String} :
    y ∈ insertSorted x l ↔ y = x ∨ y ∈ l := by
  induction l with
  | nil => simp [insertSorted]
  | cons z zs ih =>
    rw [insertSorted]
    by_cases h : ltStr x z
    · simp [h, List.mem_cons]
    · simp only [if_neg h, List.mem_cons, ih]
      tauto

theorem mem_sortStrings {y : String} {l : List String} :
    y ∈ sortStrings l ↔ y ∈ l := by
  induction l with
  | nil => simp [sortStrings]
  | cons x xs ih =>
    rw [sortStrings, mem_insertSorted, ih, List.mem_cons]

theorem mem_pyDedup {y : String} {l : List String} : y ∈ pyDedup l ↔ y ∈ l := by
  induction l with
  | nil => simp [pyDedup]
  | cons x xs ih =>
    rw [pyDedup]
    by_cases h : x ∈ xs
    · rw [if_pos h, ih, List.mem_cons]
      constructor
      · exact Or.inr
      · rintro (rfl | hy)
        · exact h
        · exact hy
    · rw [if_neg h, List.mem_cons, List.mem_cons, ih]

theorem nodup_pyDedup (l : List String) : (pyDedup l).Nodup := by
  induction l with
  | nil => simp [pyDedup]
  | cons x xs ih =>
    rw [pyDedup]
    by_cases h : x ∈ xs
    · rw [if_pos h]; exact ih
    · rw [if_neg h]
      exact List.Nodup.cons (fun hx => h (mem_pyDedup.mp hx)) ih

theorem pairwise_insertSorted {x : String} {l : List String}
    (hx : x ∉ l) (hl : l.Pairwise (· < ·)) :
    (insertSorted x l).Pairwise (· < ·) := by
  induction l with
  | nil => simp [insertSorted]
  | cons z zs ih =>
    rw [insertSorted]
    rcases List.pairwise_cons.mp hl with ⟨hz, hzs⟩
    by_cases h : ltStr x z
    · rw [if_pos h]
      have hxz : x < z := (ltStr_iff x z).mp h
      refine List.pairwise_cons.mpr ⟨?_, hl⟩
      intro w hw
      rcases List.mem_cons.mp hw with rfl | hw
      · exact hxz
      · exact lt_trans hxz (hz w hw)
    · rw [if_neg h]
      have hxz : ¬ x < z := fun hc => h ((ltStr_iff x z).mpr hc)
      have hne : x ≠ z := fun hc => hx (hc ▸ List.mem_cons_self z zs)
      have hzx : z < x := lt_of_le_of_ne (le_of_not_lt hxz) (Ne.symm hne)
      refine List.pairwise_cons.mpr ⟨?_, ih (fun hc => hx (List.mem_cons_of_mem _ hc)) hzs⟩
      intro w hw
      rcases mem_insertSorted.mp hw with rfl | hw
      · exact hzx
      · exact hz w hw

theorem pairwise_sortStrings {l : List String} (h : l.Nodup) :
    (sortStrings l).Pairwise (· < ·) := by
  induction l with
  | nil => simp [sortStrings]
  | cons x xs ih =>
    rw [sortStrings]
    rcases List.nodup_cons.mp h with ⟨hx, hxs⟩
    exact pairwise_insertSorted (fun hc => hx (mem_sortStrings.mp hc)) (ih hxs)

theorem py_sorted_set_pairwise (l : List String) :
    (py_sorted_set l).Pairwise (· < ·) :=
  pairwise_sortStrings (nodup_pyDedup l)

theorem mem_py_sorted_set {y : String} {l : List String} :
    y ∈ py_sorted_set l ↔ y ∈ l := by
  rw [py_sorted_set, mem_sortStrings, mem_pyDedup]

theorem nodup_py_sorted_set (l : List String) : (py_sorted_set l).Nodup :=
  (py_sorted_set_pairwise l).imp ne_of_lt

theorem head?_dropWhile_false {α : Type} {p : α → Bool} {l : List α} {c : α}
    (h : (l.dropWhile p).head? = some c) : p c = false := by
  induction l with
  | nil => simp [List.dropWhile] at h
  | cons a t ih =>
    rw [List.dropWhile_cons] at h
    by_cases hp : p a
    · rw [if_pos hp] at h
      exact ih h
    · rw [if_neg hp] at h
      simp only [List.head?_cons, Option.some.injEq] at h
      subst h
      exact Bool.not_eq_true _ ▸ hp

theorem dropWhile_eq_self {α : Type} {p : α → Bool} {l : List α}
    (h : ∀ c, l.head? = some c → p c = false) : l.dropWhile p = l := by
  cases l with
  | nil => rfl
  | cons a t =>
    rw [List.dropWhile_cons, if_neg]
    rw [h a rfl]
    simp

theorem getLast?_dropWhile {α : Type} {p : α → Bool} {l : List α}
    (h : l.dropWhile p ≠ []) : (l.dropWhile p).getLast? = l.getLast? := by
  induction l with
  | nil => simp [List.dropWhile] at h
  | cons a t ih =>
    rw [List.dropWhile_cons] at h ⊢
    by_cases hp : p a
    · rw [if_pos hp] at h ⊢
      cases t with
      | nil => simp [List.dropWhile] at h
      | cons b t' =>
        rw [ih h, List.getLast?_cons_cons]
    · rw [if_neg hp]

theorem head?_stripL_false {cs : List Char} {c : Char}
    (h : (stripL cs).head? = some c) : isSpace c = false := by
  rw [stripL, List.head?_reverse] at h
  cases hb : (cs.dropWhile isSpace).reverse.dropWhile isSpace with
  | nil => rw [hb] at h; simp at h
  | cons b bs =>
    rw [hb] at h
    have hne : (cs.dropWhile isSpace).reverse.dropWhile isSpace ≠ [] := by
      rw [hb]; exact List.cons_ne_nil b bs
    rw [← hb, getLast?_dropWhile hne, List.getLast?_reverse] at h
    exact head?_dropWhile_false h

theorem getLast?_stripL_false {cs : List Char} {c : Char}
    (h : (stripL cs).getLast? = some c) : isSpace c = false := by
  rw [stripL, List.getLast?_reverse] at h
  exact head?_dropWhile_false h

theorem stripL_idem (cs : List Char) : stripL (stripL cs) = stripL cs := by
  rw [stripL, stripL]
  have h1 : (((cs.dropWhile isSpace).reverse.dropWhile isSpace).reverse).dropWhile isSpace
      = ((cs.dropWhile isSpace).reverse.dropWhile isSpace).reverse := by
    apply dropWhile_eq_self
    intro c hc
    rw [List.head?_reverse] at hc
    have hne : (cs.dropWhile isSpace).reverse.dropWhile isSpace ≠ [] := by
      intro hnil
      rw [hnil] at hc
      simp at hc
    rw [getLast?_dropWhile hne, List.getLast?_reverse] at hc
    exact head?_dropWhile_false hc
  rw [h1, List.reverse_reverse]
  have h2 : ((cs.dropWhile isSpace).reverse.dropWhile isSpace).dropWhile isSpace
      = (cs.dropWhile isSpace).reverse.dropWhile isSpace := by
    apply dropWhile_eq_self
    intro c hc
    exact head?_dropWhile_false hc
  rw [h2]

theorem pystrip_idem (s : String) : pystrip (pystrip s) = pystrip s :=
  congrArg String.mk (stripL_idem s.data)

theorem unify_na_ne_empty {v : String} (h : v ≠ "") : unify_na v ≠ "" := by
  rw [unify_na]
  by_cases hm : v ∈ NA_SYNONYMS
  · rw [if_pos hm]; decide
  · rw [if_neg hm]; exact h

theorem mem_observedValues {data : List Row} {column v : String} :
    v ∈ observedValues data column
      ↔ ∃ row ∈ data, pyGetD row column "" ≠ ""
          ∧ unify_na (pyGetD row column "") = v := by
  rw [observedValues, mem_py_sorted_set, List.mem_map]
  constructor
  · rintro ⟨row, hrow, rfl⟩
    rcases List.mem_filter.mp hrow with ⟨hmem, hcond⟩
    refine ⟨row, hmem, ?_, rfl⟩
    simpa using hcond
  · rintro ⟨row, hmem, hne, rfl⟩
    refine ⟨row, List.mem_filter.mpr ⟨hmem, ?_⟩, rfl⟩
    simpa using hne

theorem mem_enumCodes {p : String} {e : (String × String) × CodeRecord} :
    ∀ {i : Nat} {l : List String}, e ∈ enumCodes p i l →
      ∃ j, ∃ hj : j < l.length,
        e = ((p, l.get ⟨j, hj⟩),
          ⟨p ++ "-c" ++ toString (i + j + 1), p, l.get ⟨j, hj⟩⟩) := by
  intro i l
  induction l generalizing i with
  | nil => intro h; simp [enumCodes] at h
  | cons v vs ih =>
    intro h
    rw [enumCodes] at h
    rcases List.mem_cons.mp h with h | h
    · exact ⟨0, Nat.succ_pos _, by simpa using h⟩
    · rcases ih h with ⟨j, hj, he⟩
      refine ⟨j + 1, Nat.succ_lt_succ hj, ?_⟩
      have : i + 1 + j + 1 = i + (j + 1) + 1 := by omega
      rw [he, this]
      rfl

theorem enumCodes_get_mem {p : String} :
    ∀ {i : Nat} {l : List String} (j : Nat) (hj : j < l.length),
      ((p, l.get ⟨j, hj⟩), (⟨p ++ "-c" ++ toString (i + j + 1), p, l.get ⟨j, hj⟩⟩ : CodeRecord))
        ∈ enumCodes p i l := by
  intro i l
  induction l generalizing i with
  | nil => intro j hj; simp at hj
  | cons v vs ih =>
    intro j hj
    cases j with
    | zero =>
      rw [enumCodes]
      exact List.mem_cons_self _ _
    | succ j' =>
      rw [enumCodes]
      refine List.mem_cons_of_mem _ ?_
      have hj' : j' < vs.length := Nat.lt_of_succ_lt_succ hj
      have harith : i + (j' + 1) + 1 = i + 1 + j' + 1 := by omega
      have := ih (i := i + 1) j' hj'
      rw [harith]
      exact this

theorem code_dict_eq (data : List Row) :
    code_dict data =
      [("marker-type", observedValues data "Type of AP Marker"),
       ("functions", observedValues data "FunctionAP"),
       ("polysemy", observedValues data "Polysemy"),
       ("productivity", observedValues data "Productivity of AP"),
       ("p-obligatoriness", observedValues data "Obligatoriness of P"),
       ("p-definiteness", observedValues data "Definiteness P")] := rfl

theorem code_dict_param_ne_marker {data : List Row} {p : String} {names : List String}
    (h : (p, names) ∈ code_dict data) : p ≠ "ap-marker" := by
  rw [code_dict_eq] at h
  simp only [List.mem_cons, List.not_mem_nil, or_false, Prod.mk.injEq] at h
  rcases h with ⟨rfl, _⟩ | ⟨rfl, _⟩ | ⟨rfl, _⟩ | ⟨rfl, _⟩ | ⟨rfl, _⟩ | ⟨rfl, _⟩ <;> decide

theorem mkCodes_key_fields {data : List Row} {q v : String} {r : CodeRecord}
    (h : ((q, v), r) ∈ mkCodes data) : r.Parameter_ID = q ∧ r.Name = v := by
  rcases List.mem_flatMap.mp h with ⟨pn, _, he⟩
  rcases mem_enumCodes he with ⟨j, hj, heq⟩
  rcases heq with ⟨h1, h2⟩
  constructor <;> rfl

theorem mkCodes_marker_none (data : List Row) (v : String) :
    pyGet? (mkCodes data) ("ap-marker", v) = none := by
  rw [pyGet?_eq_none_iff]
  intro hmem
  rcases List.mem_map.mp hmem with ⟨⟨⟨q, w⟩, r⟩, hr, hk⟩
  rcases List.mem_flatMap.mp hr with ⟨pn, hpn, he⟩
  rcases mem_enumCodes he with ⟨j, hj, heq⟩
  have hq : q = pn.1 := by
    have := congrArg (fun x => x.1.1) heq
    simpa using this
  have hmarker : pn.1 ≠ "ap-marker" := by
    rcases pn with ⟨p, names⟩
    exact code_dict_param_ne_marker hpn
  apply hmarker
  have : q = "ap-marker" := by
    have := congrArg Prod.fst hk
    simpa using this
  rw [← hq, this]

theorem param_columns_cases {column p : String}
    (h : (column, p) ∈ PARAMETER_COLUMNS) (hm : p ≠ "ap-marker") :
    (p, observedValues data column) ∈ code_dict data := by
  rw [PARAMETER_COLUMNS] at h
  rw [code_dict_eq]
  simp only [List.mem_cons, List.not_mem_nil, or_false, Prod.mk.injEq] at h
  rcases h with ⟨rfl, rfl⟩ | ⟨rfl, rfl⟩ | ⟨rfl, rfl⟩ | ⟨rfl, rfl⟩ | ⟨rfl, rfl⟩
      | ⟨rfl, rfl⟩ | ⟨rfl, rfl⟩ <;>
    first
      | exact absurd rfl hm
      | simp

theorem mkCodes_lookup_isSome {data : List Row} {column p v : String}
    (h : (column, p) ∈ PARAMETER_COLUMNS) (hm : p ≠ "ap-marker")
    (hv : v ∈ observedValues data column) :
    (pyGet? (mkCodes data) (p, v)).isSome = true := by
  rcases List.mem_iff_get.mp hv with ⟨⟨j, hj⟩, hget⟩
  have hkey := enumCodes_get_mem (p := p) (i := 0) j hj
  rw [hget] at hkey
  have hmem : ((p, v), (⟨p ++ "-c" ++ toString (0 + j + 1), p, v⟩ : CodeRecord))
      ∈ mkCodes data :=
    List.mem_flatMap.mpr ⟨(p, observedValues data column),
      param_columns_cases h hm, hkey⟩
  exact pyGet?_isSome_of_mem hmem

theorem chainGet_cons (m : List (String × String)) (ms : LangRecord) (k : String) :
    chainGet (m :: ms) k =
      match pyGet? m k with
      | some v => some v
      | none => chainGet ms k := by
  rw [chainGet]

theorem localMap_get_Name (info : LangInfo) :
    pyGet? (localMap info) "Name" = strOpt info.Name := by
  rcases info with ⟨i, n, s, f⟩
  rw [localMap, strOpt]
  by_cases h1 : i = "" <;> by_cases h2 : n = "" <;> by_cases h3 : s = "" <;>
    by_cases h4 : f = "" <;>
    simp [h1, h2, h3, h4, pyGet?, List.filter_cons]

theorem localMap_get_SubBranch (info : LangInfo) :
    pyGet? (localMap info) "SubBranch" = strOpt info.SubBranch := by
  rcases info with ⟨i, n, s, f⟩
  rw [localMap, strOpt]
  by_cases h1 : i = "" <;> by_cases h2 : n = "" <;> by_cases h3 : s = "" <;>
    by_cases h4 : f = "" <;>
    simp [h1, h2, h3, h4, pyGet?, List.filter_cons]

theorem localMap_get_Family (info : LangInfo) :
    pyGet? (localMap info) "Family" = strOpt info.Family := by
  rcases info with ⟨i, n, s, f⟩
  rw [localMap, strOpt]
  by_cases h1 : i = "" <;> by_cases h2 : n = "" <;> by_cases h3 : s = "" <;>
    by_cases h4 : f = "" <;>
    simp [h1, h2, h3, h4, pyGet?, List.filter_cons]

theorem localMap_get_other (info : LangInfo) (k : String)
    (h : k ≠ "ID" ∧ k ≠ "Name" ∧ k ≠ "SubBranch" ∧ k ≠ "Family") :
    pyGet? (localMap info) k = none := by
  rcases info with ⟨i, n, s, f⟩
  rcases h with ⟨hk1, hk2, hk3, hk4⟩
  rw [localMap]
  by_cases h1 : i = "" <;> by_cases h2 : n = "" <;> by_cases h3 : s = "" <;>
    by_cases h4 : f = "" <;>
    simp [h1, h2, h3, h4, pyGet?, List.filter_cons, Ne.symm hk1, Ne.symm hk2,
      Ne.symm hk3, Ne.symm hk4]

theorem chainGet_mk_ID (g : String) (info : LangInfo) (node : Languoid) :
    chainGet (mkLangRecord g info node) "ID" = some g := rfl

theorem chainGet_mk_Glottocode (g : String) (info : LangInfo) (node : Languoid) :
    chainGet (mkLangRecord g info node) "Glottocode" = some g := rfl

theorem chainGet_mk_ISO (g : String) (info : LangInfo) (node : Languoid) :
    chainGet (mkLangRecord g info node) "ISO639P3code" = some node.iso := rfl

theorem chainGet_mk_Name (g : String) (info : LangInfo) (node : Languoid) :
    chainGet (mkLangRecord g info node) "Name"
      = some (if info.Name = "" then node.name else info.Name) := by
  rw [mkLangRecord, chainGet_cons]
  have h1 : pyGet? (identMap g node) "Name" = none := rfl
  rw [h1, chainGet_cons, localMap_get_Name, strOpt]
  by_cases h : info.Name = ""
  · rw [if_pos h, if_pos h]
    rfl
  · rw [if_neg h, if_neg h]

theorem chainGet_mk_Macroarea (g : String) (info : LangInfo) (node : Languoid) :
    chainGet (mkLangRecord g info node) "Macroarea"
      = some (node.macroareas.headD "") := by
  rw [mkLangRecord, chainGet_cons]
  have h1 : pyGet? (identMap g node) "Macroarea" = none := rfl
  rw [h1, chainGet_cons, localMap_get_other info "Macroarea" (by refine ⟨?_, ?_, ?_, ?_⟩ <;> decide)]
  rfl

theorem chainGet_mk_Latitude (g : String) (info : LangInfo) (node : Languoid) :
    chainGet (mkLangRecord g info node) "Latitude" = some node.latitude := by
  rw [mkLangRecord, chainGet_cons]
  have h1 : pyGet? (identMap g node) "Latitude" = none := rfl
  rw [h1, chainGet_cons, localMap_get_other info "Latitude" (by refine ⟨?_, ?_, ?_, ?_⟩ <;> decide)]
  rfl

theorem chainGet_mk_Longitude (g : String) (info : LangInfo) (node : Languoid) :
    chainGet (mkLangRecord g info node) "Longitude" = some node.longitude := by
  rw [mkLangRecord, chainGet_cons]
  have h1 : pyGet? (identMap g node) "Longitude" = none := rfl
  rw [h1, chainGet_cons, localMap_get_other info "Longitude" (by refine ⟨?_, ?_, ?_, ?_⟩ <;> decide)]
  rfl

theorem chainGet_mk_SubBranch (g : String) (info : LangInfo) (node : Languoid) :
    chainGet (mkLangRecord g info node) "SubBranch" = strOpt info.SubBranch := by
  rw [mkLangRecord, chainGet_cons]
  have h1 : pyGet? (identMap g node) "SubBranch" = none := rfl
  rw [h1, chainGet_cons, localMap_get_SubBranch, strOpt]
  by_cases h : info.SubBranch = ""
  · rw [if_pos h]
    rfl
  · rw [if_neg h]

theorem chainGet_mk_Family (g : String) (info : LangInfo) (node : Languoid) :
    chainGet (mkLangRecord g info node) "Family" = strOpt info.Family := by
  rw [mkLangRecord, chainGet_cons]
  have h1 : pyGet? (identMap g node) "Family" = none := rfl
  rw [h1, chainGet_cons, localMap_get_Family, strOpt]
  by_cases h : info.Family = ""
  · rw [if_pos h]
    rfl
  · rw [if_neg h]

theorem mlt_go_ok {catalog : String → Option Languoid} {li : List (String × LangInfo)} :
    ∀ {gs : List String} {langs : List LangRecord},
      mlt_go catalog li gs = .ok langs →
        langs = gs.map (fun g =>
            mkLangRecord g (pyGetD li g default) ((catalog g).getD default))
          ∧ ∀ g ∈ gs, (catalog g).isSome = true := by
  intro gs
  induction gs with
  | nil =>
    intro langs h
    rw [mlt_go] at h
    cases h
    exact ⟨rfl, by simp⟩
  | cons g gs ih =>
    intro langs h
    rw [mlt_go] at h
    cases hc : catalog g with
    | none => rw [hc] at h; cases h
    | some node =>
      rw [hc] at h
      cases hr : mlt_go catalog li gs with
      | error e => rw [hr] at h; cases h
      | ok rest =>
        rw [hr] at h
        cases h
        rcases ih hr with ⟨hrest, hall⟩
        constructor
        · rw [List.map_cons, ← hrest, hc]
          rfl
        · intro g' hg'
          rcases List.mem_cons.mp hg' with rfl | hg'
          · rw [hc]; rfl
          · exact hall g' hg'

theorem mlt_go_error {catalog : String → Option Languoid} {g : String}
    (hcat : catalog g = none) (li : List (String × LangInfo)) :
    ∀ {gs : List String}, g ∈ gs → ∃ e, mlt_go catalog li gs = .error e := by
  intro gs
  induction gs with
  | nil => intro h; cases h
  | cons g' gs ih =>
    intro h
    rw [mlt_go]
    cases hc : catalog g' with
    | none => exact ⟨_, rfl⟩
    | some node =>
      rcases List.mem_cons.mp h with rfl | hmem
      · rw [hcat] at hc; cases hc
      · rcases ih hmem with ⟨e, he⟩
        rw [he]
        exact ⟨e, rfl⟩

theorem lang_info_keys :
    ∀ {data : List Row} {li : List (String × LangInfo)},
      lang_info_of data = .ok li →
        ∀ g, g ∈ li.map Prod.fst ↔ ∃ row ∈ data, pyGet? row "Glottolog.Name" = some g := by
  intro data
  induction data with
  | nil =>
    intro li h g
    rw [lang_info_of] at h
    cases h
    simp
  | cons row rest ih =>
    intro li h g
    rw [lang_info_of] at h
    cases hk : pyGet? row "Glottolog.Name" with
    | none => rw [hk] at h; cases h
    | some g0 =>
      rw [hk] at h
      cases hr : lang_info_of rest with
      | error e => rw [hr] at h; cases h
      | ok li' =>
        rw [hr] at h
        cases h
        simp only [List.map_cons, List.mem_cons, ih hr g]
        constructor
        · rintro (rfl | ⟨row', hrow', hg⟩)
          · exact ⟨row, Or.inl rfl, hk⟩
          · exact ⟨row', Or.inr hrow', hg⟩
        · rintro ⟨row', hrow', hg⟩
          rcases hrow' with rfl | hrow'
          · left
            rw [hk] at hg
            cases hg
            rfl
          · right
            exact ⟨row', hrow', hg⟩

theorem lang_info_last :
    ∀ {data : List Row} {li : List (String × LangInfo)},
      lang_info_of data = .ok li →
        ∀ g, pyGet? li g = (lastRowWith data g).map (mkInfo g) := by
  intro data
  induction data with
  | nil =>
    intro li h g
    rw [lang_info_of] at h
    cases h
    rfl
  | cons row rest ih =>
    intro li h g
    rw [lang_info_of] at h
    cases hk : pyGet? row "Glottolog.Name" with
    | none => rw [hk] at h; cases h
    | some g0 =>
      rw [hk] at h
      cases hr : lang_info_of rest with
      | error e => rw [hr] at h; cases h
      | ok li' =>
        rw [hr] at h
        cases h
        rw [pyGet?, lastRowWith, ih hr g]
        cases hl : lastRowWith rest g with
        | some r => rfl
        | none =>
          simp only [Option.map_none']
          by_cases hg : g0 = g
          · subst hg
            rw [if_pos rfl, if_pos hk]
            rfl
          · rw [if_neg hg, if_neg]
            · rfl
            · rw [hk]
              intro hc
              cases hc
              exact hg rfl

theorem cmd_makecldf_ok {catalog : String → Option Languoid}
    {csv : List (String × String)} {raw : List Row} {out : Output}
    (h : cmd_makecldf catalog csv raw = .ok out) :
    ∃ li langs cs vs,
      lang_info_of (normalise_table raw) = .ok li
      ∧ make_language_table catalog li = .ok langs
      ∧ constrLoop (mk_source_map csv)
          (langs.map (fun l => ((chainGet l "ID").getD "", l)))
          (mkCodes (normalise_table raw)) (fun _ => 0) (normalise_table raw)
          = .ok (cs, vs)
      ∧ out = ⟨langs, (mkCodes (normalise_table raw)).map (fun kv => kv.2), cs, vs⟩ := by
  rw [cmd_makecldf] at h
  split at h
  · exact absurd h (by simp)
  next li h1 =>
    split at h
    · exact absurd h (by simp)
    next langs h2 =>
      split at h
      · exact absurd h (by simp)
      next csvs h3 =>
        cases h
        exact ⟨li, langs, csvs.1, csvs.2, h1, h2, by rw [h3], rfl⟩

theorem countLang_cons (g : String) (r : Row) (t : List Row) :
    countLang g (r :: t)
      = (if (pyGet? r "Glottolog.Name" == some g) = true then 1 else 0)
          + countLang g t := by
  rw [countLang, countLang, List.filter_cons]
  by_cases h : (pyGet? r "Glottolog.Name" == some g) = true
  · rw [if_pos h, if_pos h, List.length_cons]
    omega
  · rw [if_neg h, if_neg h]
    omega

theorem mem_mkCValues {codesK : List ((String × String) × CodeRecord)}
    {cid : String} {row : Row} {cv : CValue} (h : cv ∈ mkCValues codesK cid row) :
    ∃ cp ∈ PARAMETER_COLUMNS, pyGetD row cp.1 "" ≠ ""
      ∧ cv.Parameter_ID = cp.2
      ∧ cv.Value = unify_na (pyGetD row cp.1 "")
      ∧ cv.Code_ID
          = (pyGet? codesK (cp.2, unify_na (pyGetD row cp.1 ""))).map (fun r => r.ID) := by
  rcases List.mem_filterMap.mp h with ⟨cp, hcp, hval⟩
  by_cases hne : pyGetD row cp.1 "" = ""
  · rw [if_pos hne] at hval
    cases hval
  · rw [if_neg hne] at hval
    cases hval
    exact ⟨cp, hcp, hne, rfl, rfl, rfl⟩

theorem constrLoop_cvalues {sm : List (String × String)}
    {langs : List (String × LangRecord)} {codesK : List ((String × String) × CodeRecord)} :
    ∀ {rows : List Row} {ords : String → Nat} {cs : List Construction} {vs : List CValue},
      constrLoop sm langs codesK ords rows = .ok (cs, vs) →
        ∀ cv ∈ vs, ∃ row ∈ rows, ∃ cp ∈ PARAMETER_COLUMNS,
          pyGetD row cp.1 "" ≠ ""
          ∧ cv.Parameter_ID = cp.2
          ∧ cv.Value = unify_na (pyGetD row cp.1 "")
          ∧ cv.Code_ID
              = (pyGet? codesK (cp.2, unify_na (pyGetD row cp.1 ""))).map (fun r => r.ID) := by
  intro rows
  induction rows with
  | nil =>
    intro ords cs vs h cv hcv
    rw [constrLoop] at h
    cases h
    cases hcv
  | cons row rest ih =>
    intro ords cs vs h cv hcv
    rw [constrLoop] at h
    split at h
    · cases h
    next lang_id hk =>
      split at h
      · cases h
      next lrec hlrec =>
        split at h
        · cases h
        next citations hcit =>
          split at h
          · cases h
          next csvs hloop =>
            cases h
            rcases List.mem_append.mp hcv with hl | hr
            · rcases mem_mkCValues hl with ⟨cp, hcp, hne, h1, h2, h3⟩
              exact ⟨row, List.mem_cons_self _ _, cp, hcp, hne, h1, h2, h3⟩
            · rcases ih hloop cv hr with ⟨row', hrow', rest_spec⟩
              exact ⟨row', List.mem_cons_of_mem _ hrow', rest_spec⟩

theorem constrLoop_constructions {sm : List (String × String)}
    {langs : List (String × LangRecord)} {codesK : List ((String × String) × CodeRecord)} :
    ∀ {rows : List Row} {ords : String → Nat} {cs : List Construction} {vs : List CValue},
      constrLoop sm langs codesK ords rows = .ok (cs, vs) →
        cs.length = rows.length
        ∧ ∀ i (hi : i < rows.length) (hi2 : i < cs.length),
            ∃ g lname,
              pyGet? (rows.get ⟨i, hi⟩) "Glottolog.Name" = some g
              ∧ (cs.get ⟨i, hi2⟩).ID
                  = g ++ "-ap" ++ toString (ords g + countLang g (rows.take (i + 1)))
              ∧ (cs.get ⟨i, hi2⟩).Language_ID = g
              ∧ (cs.get ⟨i, hi2⟩).Name
                  = lname ++ " Antipassive Construction "
                      ++ toString (ords g + countLang g (rows.take (i + 1))) := by
  intro rows
  induction rows with
  | nil =>
    intro ords cs vs h
    rw [constrLoop] at h
    cases h
    exact ⟨rfl, fun i hi => absurd hi (Nat.not_lt_zero i)⟩
  | cons row rest ih =>
    intro ords cs vs h
    rw [constrLoop] at h
    split at h
    · cases h
    next lang_id hk =>
      split at h
      · cases h
      next lrec hlrec =>
        split at h
        · cases h
        next citations hcit =>
          split at h
          · cases h
          next csvs hloop =>
            cases h
            rcases ih hloop with ⟨hlen, hspec⟩
            constructor
            · rw [List.length_cons, List.length_cons, hlen]
            · intro i hi hi2
              cases i with
              | zero =>
                refine ⟨lang_id, (chainGet lrec "Name").getD "", hk, ?_, rfl, ?_⟩
                · show lang_id ++ "-ap" ++ toString (ords lang_id + 1)
                    = lang_id ++ "-ap"
                        ++ toString (ords lang_id + countLang lang_id ((row :: rest).take 1))
                  have hc : countLang lang_id ((row :: rest).take 1) = 1 := by
                    rw [List.take_succ_cons, List.take_zero, countLang_cons, countLang]
                    rw [hk]
                    simp
                  rw [hc]
                · show (chainGet lrec "Name").getD "" ++ " Antipassive Construction "
                      ++ toString (ords lang_id + 1)
                    = (chainGet lrec "Name").getD "" ++ " Antipassive Construction "
                        ++ toString (ords lang_id + countLang lang_id ((row :: rest).take 1))
                  have hc : countLang lang_id ((row :: rest).take 1) = 1 := by
                    rw [List.take_succ_cons, List.take_zero, countLang_cons, countLang]
                    rw [hk]
                    simp
                  rw [hc]
              | succ j =>
                have hj : j < rest.length := Nat.lt_of_succ_lt_succ hi
                have hj2 : j < csvs.1.length := Nat.lt_of_succ_lt_succ hi2
                rcases hspec j hj hj2 with ⟨g, lname, hg, hID, hLang, hName⟩
                have harith : ords g + countLang g ((row :: rest).take (j + 1 + 1))
                    = (if g = lang_id then ords lang_id + 1 else ords g)
                        + countLang g (rest.take (j + 1)) := by
                  rw [List.take_succ_cons, countLang_cons]
                  by_cases hb : (pyGet? row "Glottolog.Name" == some g) = true
                  · rw [if_pos hb]
                    rw [hk] at hb
                    have hgl : lang_id = g := by simpa using hb
                    subst hgl
                    rw [if_pos rfl]
                    omega
                  · rw [if_neg hb]
                    rw [hk] at hb
                    have hgl : ¬ lang_id = g := fun hc => hb (by rw [hc]; simp)
                    rw [if_neg (fun hc => hgl hc.symm)]
                    omega
                refine ⟨g, lname, hg, ?_, hLang, ?_⟩
                · simp only [List.get_cons_succ]
                  rw [hID, harith]
                · simp only [List.get_cons_succ]
                  rw [hName, harith]

/-!  ## Claims  -/

/-- C1: the claim says an unresolvable citation line is reported to
diagnostics with its row number and text, omitted from the source list,
and the run continues.  The code is wrong: the reporting branch of
known_citation writes to sys.stderr but the module never imports sys, so
the first unresolvable citation raises NameError and aborts the whole run.
This theorem evaluates the pipeline at such an input: the cited string is
absent from the citation table and the run ends in the NameError instead
of an ok result. -/
theorem C1_unknown_citation_aborts :
    pyGet? (mk_source_map exCitCsv) "Nonexistent 2020" = none
    ∧ cmd_makecldf exCatalog exCitCsv c1Raw
        = .error "NameError: name 'sys' is not defined" :=
  ⟨rfl, rfl⟩

/-- C3: the claim says each source line is stripped before being looked up,
so a whitespace-padded line whose stripped form is a key resolves to its
bibliography key.  The code is wrong: the guard checks the unstripped line
against the table (only the indexing expression strips), so the padded
line takes the unknown-citation path, which in turn aborts with NameError
because sys is never imported.  At this input the line is the padded
string Say 2005 with a trailing blank: its stripped form is a key of the
table, the raw line is not, and the run aborts instead of resolving it. -/
theorem C3_unstripped_lookup_aborts :
    pystrip "Say 2005 " = "Say 2005"
    ∧ pyGet? (mk_source_map exCitCsv) "Say 2005" = some "say2005"
    ∧ pyGet? (mk_source_map exCitCsv) "Say 2005 " = none
    ∧ cmd_makecldf exCatalog exCitCsv c3Raw
        = .error "NameError: name 'sys' is not defined" :=
  ⟨rfl, rfl, rfl, rfl⟩

/-- C8: for every input table, the normaliser returns rows whose keys and
values are stripped (stripping again changes nothing) and non-empty,
drops rows that become empty, and preserves the relative order of the
surviving rows (the output is a sublist of the row-wise normalisation);
the function is total, hence has no failure modes. -/
theorem C8_normaliser (table : List Row) :
    (∀ row ∈ normalise_table table, ∀ kv ∈ row,
        pystrip kv.1 = kv.1 ∧ pystrip kv.2 = kv.2 ∧ kv.1 ≠ "" ∧ kv.2 ≠ "")
    ∧ (∀ row ∈ normalise_table table, row ≠ [])
    ∧ (normalise_table table).Sublist (table.map normalise_row) := by
  refine ⟨?_, ?_, List.filter_sublist _⟩
  · intro row hrow kv hkv
    have hmap : row ∈ table.map normalise_row :=
      (List.mem_filter.mp hrow).1
    rcases List.mem_map.mp hmap with ⟨row0, _, rfl⟩
    rw [normalise_row] at hkv
    rcases List.mem_filter.mp hkv with ⟨hmem, hcond⟩
    rcases List.mem_map.mp hmem with ⟨kv0, _, rfl⟩
    have hne : ¬ pystrip kv0.1 = "" ∧ ¬ pystrip kv0.2 = "" := by
      simpa using hcond
    exact ⟨pystrip_idem kv0.1, pystrip_idem kv0.2, hne.1, hne.2⟩
  · intro row hrow
    have hcond := (List.mem_filter.mp hrow).2
    intro hnil
    rw [hnil] at hcond
    simp at hcond

/-- C8 witness: the theorem applied to a concrete two-row table. -/
theorem C8_normaliser_witness :
    (normalise_table [[("  a ", " b "), ("c", "  ")], [(" ", " ")]]).Sublist
      ([[("  a ", " b "), ("c", "  ")], [(" ", " ")]].map normalise_row) :=
  (C8_normaliser [[("  a ", " b "), ("c", "  ")], [(" ", " ")]]).2.2

/-- C9: unify_na maps each of the four NA synonyms to the canonical token
n/a and leaves every other string unchanged. -/
theorem C9_unify_na :
    (∀ v ∈ NA_SYNONYMS, unify_na v = "n/a")
    ∧ ∀ v, v ∉ NA_SYNONYMS → unify_na v = v := by
  constructor
  · intro v hv
    rw [unify_na, if_pos hv]
  · intro v hv
    rw [unify_na, if_neg hv]

/-- C9 witness: the theorem applied to a synonym and a non-synonym. -/
theorem C9_unify_na_witness :
    unify_na "NI" = "n/a" ∧ unify_na "antipassive" = "antipassive" :=
  ⟨C9_unify_na.1 "NI" (by decide), C9_unify_na.2 "antipassive" (by decide)⟩

/-- C5: for every parameter column other than ap-marker, the code
vocabulary is the distinct NA-unified values observed in non-empty cells,
strictly sorted in lexicographic order; the vocabulary is registered for
that parameter; the code keyed by the value at sorted position i carries
identifier parameter-c(i+1); and the same value under two different
parameters yields two distinct code records. -/
theorem C5_vocab (data : List Row) (column p : String)
    (h : (column, p) ∈ PARAMETER_COLUMNS) (hm : p ≠ "ap-marker") :
    (observedValues data column).Pairwise (· < ·)
    ∧ (∀ v, v ∈ observedValues data column
        ↔ ∃ row ∈ data, pyGetD row column "" ≠ ""
            ∧ unify_na (pyGetD row column "") = v)
    ∧ (p, observedValues data column) ∈ code_dict data
    ∧ (∀ i (hi : i < (observedValues data column).length),
        ((p, (observedValues data column).get ⟨i, hi⟩),
          (⟨p ++ "-c" ++ toString (i + 1), p,
            (observedValues data column).get ⟨i, hi⟩⟩ : CodeRecord))
          ∈ mkCodes data)
    ∧ ∀ q v r₁ r₂, ((p, v), r₁) ∈ mkCodes data → ((q, v), r₂) ∈ mkCodes data →
        p ≠ q → r₁ ≠ r₂ := by
  refine ⟨py_sorted_set_pairwise _, fun v => mem_observedValues,
    param_columns_cases h hm, ?_, ?_⟩
  · intro i hi
    have hkey := enumCodes_get_mem (p := p) (i := 0) i hi
    rw [Nat.zero_add] at hkey
    exact List.mem_flatMap.mpr
      ⟨(p, observedValues data column), param_columns_cases h hm, hkey⟩
  · intro q v r₁ r₂ h₁ h₂ hpq hr
    rcases mkCodes_key_fields h₁ with ⟨hp₁, _⟩
    rcases mkCodes_key_fields h₂ with ⟨hp₂, _⟩
    apply hpq
    rw [← hp₁, hr, hp₂]

/-- C5 witness: the theorem applied to a concrete data set and the
marker-type parameter. -/
theorem C5_vocab_witness :
    (("marker-type", observedValues c5data "Type of AP Marker")
      ∈ code_dict c5data) :=
  (C5_vocab c5data "Type of AP Marker" "marker-type" (by decide) (by decide)).2.2.1

/-- C7: if some language identifier occurring in the normalised data has
no catalog entry, cmd_makecldf ends in an error (the KeyError raised by
the nodemap lookup, or an earlier KeyError if some row lacks the
identifier column); the Except model returns no Output, so nothing is
written. -/
theorem C7_missing_catalog (catalog : String → Option Languoid)
    (citationCsv : List (String × String)) (rawData : List Row) (g : String)
    (hg : (normalise_table rawData).any
        (fun row => pyGet? row "Glottolog.Name" == some g) = true)
    (hcat : catalog g = none) :
    ∃ e, cmd_makecldf catalog citationCsv rawData = .error e := by
  cases h1 : lang_info_of (normalise_table rawData) with
  | error e =>
    refine ⟨e, ?_⟩
    simp only [cmd_makecldf, h1]
  | ok li =>
    have hkey : g ∈ li.map Prod.fst := by
      rcases List.any_eq_true.mp hg with ⟨row, hrow, hbeq⟩
      exact (lang_info_keys h1 g).mpr ⟨row, hrow, by simpa using hbeq⟩
    have hsorted : g ∈ py_sorted_set (li.map (fun kv => kv.1)) := by
      rw [mem_py_sorted_set]
      exact hkey
    rcases mlt_go_error hcat li hsorted with ⟨e, he⟩
    refine ⟨e, ?_⟩
    simp only [cmd_makecldf, h1, make_language_table, he]

/-- C7 witness: the theorem applied to the example data with a catalog
that lacks lezg1247. -/
theorem C7_missing_catalog_witness :
    ∃ e, cmd_makecldf c7cat exCitCsv exRaw = .error e :=
  C7_missing_catalog c7cat exCitCsv exRaw "lezg1247" (by rfl) (by rfl)

/-- C2 counterexample: the claim says the catalog name always overrides a
locally derived name.  At this input the lang_info layer holds the
non-empty local name Local Name while the catalog record's name is
Catalog Name, and the built record answers Local Name: in a ChainMap the
first layer wins, and the local layer precedes the enrichment layer. -/
theorem C2_catalog_precedence_cex :
    make_language_table c2cat c2li = .ok [c2rec]
    ∧ c2cat "abcd1234" = some c2node
    ∧ c2node.name = "Catalog Name"
    ∧ chainGet c2rec "Name" = some "Local Name"
    ∧ chainGet c2rec "Name" ≠ some c2node.name := by
  refine ⟨rfl, rfl, rfl, rfl, ?_⟩
  decide

/-- C2 as amended: the generated identifier fields come first, then the
locally derived fields, then the catalog enrichment: ID, Glottocode and
the ISO code are generated; Macroarea, Latitude and Longitude come from
the catalog (no local layer carries them); Name is the locally derived
name when that is non-empty and the catalog name otherwise; SubBranch and
Family are the local values, present only when non-empty. -/
theorem C2_merge_precedence {catalog : String → Option Languoid}
    {li : List (String × LangInfo)} {langs : List LangRecord}
    (h : make_language_table catalog li = .ok langs) :
    ∀ lrec ∈ langs, ∃ g node,
      catalog g = some node
      ∧ chainGet lrec "ID" = some g
      ∧ chainGet lrec "Glottocode" = some g
      ∧ chainGet lrec "ISO639P3code" = some node.iso
      ∧ chainGet lrec "Macroarea" = some (node.macroareas.headD "")
      ∧ chainGet lrec "Latitude" = some node.latitude
      ∧ chainGet lrec "Longitude" = some node.longitude
      ∧ chainGet lrec "Name"
          = some (if (pyGetD li g default).Name = "" then node.name
              else (pyGetD li g default).Name)
      ∧ chainGet lrec "SubBranch" = strOpt (pyGetD li g default).SubBranch
      ∧ chainGet lrec "Family" = strOpt (pyGetD li g default).Family := by
  rw [make_language_table] at h
  rcases mlt_go_ok h with ⟨hl, hsome⟩
  subst hl
  intro lrec hrec
  rcases List.mem_map.mp hrec with ⟨g, hg, rfl⟩
  rcases Option.isSome_iff_exists.mp (hsome g hg) with ⟨node, hnode⟩
  have hgetD : (catalog g).getD default = node := by
    rw [hnode]
    rfl
  rw [hgetD]
  exact ⟨g, node, hnode, chainGet_mk_ID g _ node, chainGet_mk_Glottocode g _ node,
    chainGet_mk_ISO g _ node, chainGet_mk_Macroarea g _ node,
    chainGet_mk_Latitude g _ node, chainGet_mk_Longitude g _ node,
    chainGet_mk_Name g _ node, chainGet_mk_SubBranch g _ node,
    chainGet_mk_Family g _ node⟩

/-- C2 witness: the amended theorem applied to the concrete catalog and
lang_info of the counterexample yields the local name for the record of
abcd1234. -/
theorem C2_merge_precedence_witness :
    chainGet c2rec "Name" = some "Local Name" := by
  rcases C2_merge_precedence (by rfl : make_language_table c2cat c2li = .ok [c2rec])
      c2rec (List.mem_singleton.mpr rfl) with
    ⟨g, node, hcat, hID, _, _, _, _, _, hName, _, _⟩
  have hg : g = "abcd1234" := by
    have hsome : some g = some "abcd1234" := by
      rw [← hID]
      rfl
    exact Option.some_injective String hsome
  subst hg
  have hnode : node = c2node := by
    have hsome : some c2node = some node := by
      rw [← hcat]
      rfl
    exact (Option.some_injective Languoid hsome).symm
  subst hnode
  rw [hName]
  rfl

/-- C4: in any successful run, every emitted construction value whose
parameter is not ap-marker carries a non-absent code reference, namely the
identifier of the code record that the lookup table holds for its
(parameter, unified value) pair; every value of the ap-marker parameter
carries an absent code reference. -/
theorem C4_codes (catalog : String → Option Languoid)
    (citationCsv : List (String × String)) (rawData : List Row) (out : Output)
    (hout : cmd_makecldf catalog citationCsv rawData = .ok out) :
    ∀ cv ∈ out.cvalues,
      (cv.Parameter_ID = "ap-marker" → cv.Code_ID = none)
      ∧ (cv.Parameter_ID ≠ "ap-marker" →
          ∃ r, pyGet? (mkCodes (normalise_table rawData)) (cv.Parameter_ID, cv.Value)
                = some r
            ∧ cv.Code_ID = some r.ID
            ∧ r.Parameter_ID = cv.Parameter_ID ∧ r.Name = cv.Value) := by
  rcases cmd_makecldf_ok hout with ⟨li, langs, cs, vs, h1, h2, h3, h4⟩
  subst h4
  intro cv hcv
  rcases constrLoop_cvalues h3 cv hcv with
    ⟨row, hrow, cp, hcp, hne, hparam, hval, hcode⟩
  constructor
  · intro hmark
    have hcp2 : cp.2 = "ap-marker" := by rw [← hparam, hmark]
    rw [hcp2, mkCodes_marker_none] at hcode
    simpa using hcode
  · intro hmark
    have hcp2 : cp.2 ≠ "ap-marker" := fun hc => hmark (hparam.trans hc)
    have hv : unify_na (pyGetD row cp.1 "")
        ∈ observedValues (normalise_table rawData) cp.1 :=
      mem_observedValues.mpr ⟨row, hrow, hne, rfl⟩
    have hsome : (pyGet? (mkCodes (normalise_table rawData))
        (cp.2, unify_na (pyGetD row cp.1 ""))).isSome = true :=
      mkCodes_lookup_isSome hcp hcp2 hv
    rcases Option.isSome_iff_exists.mp hsome with ⟨r, hr⟩
    rcases mkCodes_key_fields (pyGet?_mem hr) with ⟨hrp, hrn⟩
    refine ⟨r, ?_, ?_, ?_, ?_⟩
    · rw [hparam, hval]
      exact hr
    · rw [hcode, hr]
      rfl
    · rw [hrp, hparam]
    · rw [hrn, hval]

/-- C4 witness: the theorem applied to the example run at its first
cvalue, an ap-marker value, shows its code reference absent. -/
theorem C4_codes_witness :
    (exOut.cvalues.headD default).Parameter_ID = "ap-marker"
    ∧ (exOut.cvalues.headD default).Code_ID = none :=
  ⟨by rfl,
    (C4_codes exCatalog exCitCsv exRaw exOut (by rfl)
      (exOut.cvalues.headD default) (by decide)).1 (by rfl)⟩

/-- C6: a successful run emits exactly one construction per normalised row
in original row order; the construction at row i belongs to that row's
language g, its identifier is g-ap(n) where n is the number of rows up to
and including row i whose language is g (the 1-based per-language counter
in row-encounter order), and its display name embeds the same counter. -/
theorem C6_numbering (catalog : String → Option Languoid)
    (citationCsv : List (String × String)) (rawData : List Row) (out : Output)
    (hout : cmd_makecldf catalog citationCsv rawData = .ok out) :
    out.constructions.length = (normalise_table rawData).length
    ∧ ∀ i (hi : i < (normalise_table rawData).length)
        (hi2 : i < out.constructions.length),
        ∃ g lname,
          pyGet? ((normalise_table rawData).get ⟨i, hi⟩) "Glottolog.Name" = some g
          ∧ (out.constructions.get ⟨i, hi2⟩).ID
              = g ++ "-ap"
                  ++ toString (countLang g ((normalise_table rawData).take (i + 1)))
          ∧ (out.constructions.get ⟨i, hi2⟩).Language_ID = g
          ∧ (out.constructions.get ⟨i, hi2⟩).Name
              = lname ++ " Antipassive Construction "
                  ++ toString (countLang g ((normalise_table rawData).take (i + 1))) := by
  rcases cmd_makecldf_ok hout with ⟨li, langs, cs, vs, h1, h2, h3, h4⟩
  subst h4
  rcases constrLoop_constructions h3 with ⟨hlen, hspec⟩
  refine ⟨hlen, ?_⟩
  intro i hi hi2
  rcases hspec i hi hi2 with ⟨g, lname, hg, hID, hLang, hName⟩
  simp only [Nat.zero_add] at hID hName
  exact ⟨g, lname, hg, hID, hLang, hName⟩

/-- C6 witness: the theorem applied to the example run with three rows and
two languages interleaved. -/
theorem C6_numbering_witness :
    exOut.constructions.length = (normalise_table exRaw).length :=
  (C6_numbering exCatalog exCitCsv exRaw exOut (by rfl)).1

/-- C10: in any successful run there is exactly one language record per
identifier (the identifiers of the language table are pairwise distinct,
and an identifier appears iff some normalised row carries it), and the
locally derived Name, SubBranch and Family fields of the record for g are
computed from the last row with identifier g in input order: later rows
silently overwrite earlier ones in the lang_info aggregation. -/
theorem C10_last_wins (catalog : String → Option Languoid)
    (citationCsv : List (String × String)) (rawData : List Row) (out : Output)
    (hout : cmd_makecldf catalog citationCsv rawData = .ok out) :
    (out.languages.map (fun lrec => chainGet lrec "ID")).Nodup
    ∧ (∀ g, some g ∈ out.languages.map (fun lrec => chainGet lrec "ID")
        ↔ ∃ row ∈ normalise_table rawData, pyGet? row "Glottolog.Name" = some g)
    ∧ ∀ lrec ∈ out.languages, ∀ g, chainGet lrec "ID" = some g →
        ∃ row node, lastRowWith (normalise_table rawData) g = some row
          ∧ catalog g = some node
          ∧ chainGet lrec "Name"
              = some (if title_case (pyGetD row "Language" "") = "" then node.name
                  else title_case (pyGetD row "Language" ""))
          ∧ chainGet lrec "SubBranch" = strOpt (title_case (pyGetD row "Sub-branch" ""))
          ∧ chainGet lrec "Family" = strOpt (title_case (pyGetD row "Family" "")) := by
  rcases cmd_makecldf_ok hout with ⟨li, langs, cs, vs, h1, h2, h3, h4⟩
  subst h4
  rw [make_language_table] at h2
  rcases mlt_go_ok h2 with ⟨hl, hsome⟩
  subst hl
  have hids : ((py_sorted_set (li.map (fun kv => kv.1))).map
        (fun g => mkLangRecord g (pyGetD li g default) ((catalog g).getD default))).map
        (fun lrec => chainGet lrec "ID")
      = (py_sorted_set (li.map (fun kv => kv.1))).map some := by
    rw [List.map_map]
    exact List.map_congr_left
      (fun g _ => chainGet_mk_ID g (pyGetD li g default) ((catalog g).getD default))
  refine ⟨?_, ?_, ?_⟩
  · rw [hids]
    exact (nodup_py_sorted_set _).map (Option.some_injective String)
  · intro g
    rw [hids]
    rw [List.mem_map]
    constructor
    · rintro ⟨g0, hg0, hgg⟩
      have heq : g0 = g := Option.some_injective String hgg
      exact (lang_info_keys h1 g).mp (mem_py_sorted_set.mp (heq ▸ hg0))
    · intro hrow
      refine ⟨g, mem_py_sorted_set.mpr ((lang_info_keys h1 g).mpr hrow), rfl⟩
  · intro lrec hrec g hid
    rcases List.mem_map.mp hrec with ⟨g0, hg0, hrec0⟩
    have hid0 : chainGet lrec "ID" = some g0 := by
      rw [← hrec0]
      exact chainGet_mk_ID g0 (pyGetD li g0 default) ((catalog g0).getD default)
    have hgg : g0 = g := by
      rw [hid0] at hid
      exact Option.some_injective String hid
    subst hgg
    rw [← hrec0]
    have hkey : g0 ∈ li.map Prod.fst := mem_py_sorted_set.mp hg0
    have hs : (pyGet? li g0).isSome = true := pyGet?_isSome_iff.mpr hkey
    have hlast := lang_info_last h1 g0
    cases hrow : lastRowWith (normalise_table rawData) g0 with
    | none =>
      rw [hrow] at hlast
      rw [hlast] at hs
      simp at hs
    | some row =>
      rw [hrow] at hlast
      rcases Option.isSome_iff_exists.mp (hsome g0 hg0) with ⟨node, hnode⟩
      have hinfo : pyGetD li g0 default = mkInfo g0 row := by
        rw [pyGetD, hlast]
        rfl
      have hgetD : (catalog g0).getD default = node := by
        rw [hnode]
        rfl
      refine ⟨row, node, rfl, hnode, ?_, ?_, ?_⟩
      · rw [hgetD, hinfo, chainGet_mk_Name]
        rfl
      · rw [hgetD, hinfo, chainGet_mk_SubBranch]
        rfl
      · rw [hgetD, hinfo, chainGet_mk_Family]
        rfl

/-- C10 witness: the theorem applied to the example run, in which taba1259
occurs in two rows. -/
theorem C10_last_wins_witness :
    (exOut.languages.map (fun lrec => chainGet lrec "ID")).Nodup :=
  (C10_last_wins exCatalog exCitCsv exRaw exOut (by rfl)).1

end AP
